import Mathlib

/-!
Verification of the bmemcache in-memory cache library.

Go strings are modelled as `List Char`, Go's `time.Time` and `time.Duration`
as `Int` (nanoseconds; the zero `time.Time` is modelled by `0`), and the Go
map `map[string]*cacheEntry[T]` as an association list with at most one
binding per key.  Operations that read the wall clock take an explicit
`now : Int` argument.  Operations that mutate the receiver return the new
cache state alongside their Go return values.
-/

namespace BMem

/-- A Go string, modelled as its list of characters. -/
abbrev Str := List Char

/-- Go `strings.Join(elems, sep)`: concatenates `elems`, placing `sep`
between consecutive elements. -/
def stringsJoin (sep : Str) : List Str → Str
  | [] => []
  | [s] => s
  | s :: s2 :: rest => s ++ sep ++ stringsJoin sep (s2 :: rest)

/-- Worker for `stringsSplit` with a non-empty separator: scans the subject
left to right; at `skip = 0` it tests whether the (whole) separator starts
at the current position, emitting the accumulated chunk and arranging for
the remaining `sep.length - 1` separator characters to be consumed
(`skip > 0` states) when it does. -/
def stringsSplitAux (sep : Str) : Str → Nat → Str → List Str
  | [], _, acc => [acc.reverse]
  | _ :: rest, skip + 1, acc => stringsSplitAux sep rest skip acc
  | ch :: rest, 0, acc =>
    if sep.isPrefixOf (ch :: rest) then
      acc.reverse :: stringsSplitAux sep rest (sep.length - 1) []
    else
      stringsSplitAux sep rest 0 (ch :: acc)

/-- Go `strings.Split(s, sep)`: with an empty separator the string is split
into its individual characters; otherwise it is split around each
non-overlapping, leftmost-first occurrence of `sep`. -/
def stringsSplit (sep s : Str) : List Str :=
  match sep with
  | [] => s.map (fun ch => [ch])
  | _ :: _ => stringsSplitAux sep s 0 []

/-- Function `generateEmptyData` returns the zero value for a given type `T`
(modelled by the `Inhabited` default). -/
def generateEmptyData (T : Type) [Inhabited T] : T := default

/-- Function `generateCacheKey` creates a cache key by joining the provided keys
using the given separator; an empty key list is replaced by `[""]`. -/
def generateCacheKey (separator : Str) (keys : List Str) : Str :=
  stringsJoin separator (if keys.length = 0 then [[]] else keys)

/-- Function `deGenerateCacheKey` splits a full cache key back into its individual
components based on the provided separator; an empty full key yields the
empty component list. -/
def deGenerateCacheKey (separator fullKey : Str) : List Str :=
  if fullKey.length = 0 then [] else stringsSplit separator fullKey

/-- The error values of `errors.go` that the cache operations return. -/
inductive GoError where
  | ErrEmpty
  | ErrNotFound
  | ErrExpired
  deriving DecidableEq, Repr

/-- A cache entry: the stored data together with its expiration instant
(`Exp = 0` models the zero `time.Time`, i.e. "never expires"). -/
structure cacheEntry (T : Type) where
  Data : T
  Exp : Int
  deriving DecidableEq, Repr

/-- Method `cacheEntry.isExpired`: true iff the expiration instant is set
(non-zero) and the current time is strictly after it. -/
def cacheEntry.isExpired {T : Type} (ce : cacheEntry T) (now : Int) : Bool :=
  decide (¬ ce.Exp = 0) && decide (ce.Exp < now)

/-- Method `cacheEntry.flush`: resets the entry's stored data to the zero value of
`T`, leaving the expiration instant unchanged. -/
def cacheEntry.flush {T : Type} [Inhabited T] (ce : cacheEntry T) : cacheEntry T :=
  { ce with Data := generateEmptyData T }

/-- Lookup in the association list modelling the Go map
(`entry, ok := c.items[key]`). -/
def mapLookup {T : Type} : List (Str × cacheEntry T) → Str → Option (cacheEntry T)
  | [], _ => none
  | (k, e) :: rest, key => if k = key then some e else mapLookup rest key

/-- Assignment in the association list modelling the Go map
(`c.items[key] = entry`): replaces the binding if present, appends it
otherwise, so each key has at most one binding. -/
def mapStore {T : Type} : List (Str × cacheEntry T) → Str → cacheEntry T → List (Str × cacheEntry T)
  | [], key, e => [(key, e)]
  | (k, e0) :: rest, key, e =>
    if k = key then (key, e) :: rest else (k, e0) :: mapStore rest key e

/-- The configuration struct of `options.go`. -/
structure option where
  AutoCleanup : Bool := false
  AutoCleanupInterval : Int := 0
  CacheKeySeparator : Str := []
  deriving DecidableEq, Repr

/-- Constant for `time.Minute` in nanoseconds. -/
def timeMinute : Int := 60000000000

/-- Function `withAutoCleanUp.Apply`: enables auto-cleanup and stores the supplied
interval, replacing it by `time.Minute` exactly when it equals zero. -/
def withAutoCleanUp (duration : Int) (o : option) : option :=
  let o1 := { o with AutoCleanup := true, AutoCleanupInterval := duration }
  if duration = 0 then { o1 with AutoCleanupInterval := timeMinute } else o1

/-- Function `withCacheKeySeparator.Apply`: stores the supplied separator. -/
def withCacheKeySeparator (separator : Str) (o : option) : option :=
  { o with CacheKeySeparator := separator }

/-- The cache state of `bmemcache.go`.  `doneChan = none` models a nil
channel (no scheduler started); `some false` an open channel; `some true` a
closed one.  `doneOnce` records whether the `sync.Once` guarding `Close`
has fired. -/
structure bmemCache (T : Type) where
  items : List (Str × cacheEntry T)
  cacheKeySeparator : Str
  doneOnce : Bool
  doneChan : Option Bool
  deriving DecidableEq, Repr

/-- Function `New`: applies the options (as functions, modelling `Option.Apply`) to
a zero-valued configuration and builds the cache; a done channel exists
exactly when auto-cleanup was enabled. -/
def New (T : Type) (options : List (option → option)) : bmemCache T :=
  let o := options.foldl (fun acc v => v acc) {}
  { items := [],
    cacheKeySeparator := o.CacheKeySeparator,
    doneOnce := false,
    doneChan := if o.AutoCleanup then some false else none }

/-- Function `SetWithExp`: stores `data` under the encoded key with expiration
instant `now + duration` when `duration > 0` and the zero instant (never
expires) otherwise, overwriting any existing entry. -/
def bmemCache.SetWithExp {T : Type} (c : bmemCache T) (data : T) (duration now : Int)
    (keys : List Str) : bmemCache T :=
  let key := generateCacheKey c.cacheKeySeparator keys
  let exp : Int := if duration > 0 then now + duration else 0
  { c with items := mapStore c.items key ⟨data, exp⟩ }

/-- Function `Set`: `SetWithExp` with duration `0`, i.e. no expiration. -/
def bmemCache.Set {T : Type} (c : bmemCache T) (data : T) (now : Int)
    (keys : List Str) : bmemCache T :=
  bmemCache.SetWithExp c data 0 now keys

/-- Function `Get`: returns `(zero, ErrNotFound)` if the encoded key is absent;
`(zero, ErrExpired)` if the entry is expired, flushing the entry's data in
place; otherwise the stored data with no error.  The second component is
the cache state after the call. -/
def bmemCache.Get {T : Type} [Inhabited T] (c : bmemCache T) (now : Int)
    (keys : List Str) : (T × Option GoError) × bmemCache T :=
  let key := generateCacheKey c.cacheKeySeparator keys
  match mapLookup c.items key with
  | none => ((generateEmptyData T, some GoError.ErrNotFound), c)
  | some entry =>
    if entry.isExpired now then
      ((generateEmptyData T, some GoError.ErrExpired),
        { c with items := mapStore c.items key entry.flush })
    else
      ((entry.Data, none), c)

/-- Function `Delete`: removes the encoded key, or returns `ErrNotFound` when it is
absent. -/
def bmemCache.Delete {T : Type} (c : bmemCache T) (keys : List Str) :
    Option GoError × bmemCache T :=
  let key := generateCacheKey c.cacheKeySeparator keys
  match mapLookup c.items key with
  | none => (some GoError.ErrNotFound, c)
  | some _ => (none, { c with items := c.items.filter (fun p => decide (¬ p.1 = key)) })

/-- Function `Keys`: every stored (encoded) key, decoded back into its parts. -/
def bmemCache.Keys {T : Type} (c : bmemCache T) : List (List Str) :=
  c.items.map (fun p => deGenerateCacheKey c.cacheKeySeparator p.1)

/-- The body of the prefix-matching loop of `KeysFromPrefix`: element-wise
equality of the prefix parts against the head of an existing key's parts. -/
def prefixLoopMatch : List Str → List Str → Bool
  | [], _ => true
  | _ :: _, [] => false
  | k :: ks, f :: fs => decide (k = f) && prefixLoopMatch ks fs

/-- Function `KeysFromPrefix`: with no prefix parts it consults `Get` on the string
`generateCacheKey(sep)` (passed as a single key part) and returns `[[]]` on
success and `[]` on error; with prefix parts it keeps every decoded stored
key that is at least as long as the prefix and agrees with it element-wise.
The second component is the cache state after the call (the `Get` in the
empty-prefix branch can flush an expired entry). -/
def bmemCache.KeysFromPrefix {T : Type} [Inhabited T] (c : bmemCache T) (now : Int)
    (keys : List Str) : List (List Str) × bmemCache T :=
  if keys.length = 0 then
    let r := bmemCache.Get c now [generateCacheKey c.cacheKeySeparator keys]
    match r.1.2 with
    | some _ => ([], r.2)
    | none => ([[]], r.2)
  else
    ((bmemCache.Keys c).filter
      (fun existingKeyFrags =>
        decide (¬ existingKeyFrags.length < keys.length) &&
          prefixLoopMatch keys existingKeyFrags), c)

/-- Function `IsExist`: true iff the encoded key is present, regardless of
expiration state. -/
def bmemCache.IsExist {T : Type} (c : bmemCache T) (keys : List Str) : Bool :=
  (mapLookup c.items (generateCacheKey c.cacheKeySeparator keys)).isSome

/-- Function `IsExpired`: `ErrNotFound` when the key is absent; otherwise the
entry's expiration state as a boolean. -/
def bmemCache.IsExpired {T : Type} (c : bmemCache T) (now : Int) (keys : List Str) :
    Bool × Option GoError :=
  match mapLookup c.items (generateCacheKey c.cacheKeySeparator keys) with
  | none => (false, some GoError.ErrNotFound)
  | some entry => (entry.isExpired now, none)

/-- Function `TTL`: `ErrNotFound` when the key is absent; `(-1, nil)` when the entry
has no expiration instant; `(0, ErrExpired)` when the remaining time is
non-positive; otherwise the remaining time with no error. -/
def bmemCache.TTL {T : Type} (c : bmemCache T) (now : Int) (keys : List Str) :
    Int × Option GoError :=
  match mapLookup c.items (generateCacheKey c.cacheKeySeparator keys) with
  | none => (0, some GoError.ErrNotFound)
  | some entry =>
    if entry.Exp = 0 then (-1, none)
    else
      let remaining := entry.Exp - now
      if remaining ≤ 0 then (0, some GoError.ErrExpired)
      else (remaining, none)

/-- Function `Clear`: replaces the item map with an empty one. -/
def bmemCache.Clear {T : Type} (c : bmemCache T) : bmemCache T :=
  { c with items := [] }

/-- Function `Close`: guarded by the `sync.Once`; the first call signals and closes
the done channel when one exists and nothing thereafter. -/
def bmemCache.Close {T : Type} (c : bmemCache T) : bmemCache T :=
  if c.doneOnce then c
  else
    { c with doneOnce := true, doneChan := c.doneChan.map (fun _ => true) }

/-- One tick of the `autoCleanup` loop: removes every expired entry. -/
def bmemCache.autoCleanupTick {T : Type} (c : bmemCache T) (now : Int) : bmemCache T :=
  { c with items := c.items.filter (fun p => ! p.2.isExpired now) }

/-- A concrete cache with separator `"|"` holding the keys `{a,b,c}`,
`{a,b,d}` and `{x,y,z}` (the prefix-matching scenario of the test suite). -/
def cacheABC : bmemCache Int :=
  bmemCache.Set
    (bmemCache.Set
      (bmemCache.Set (New Int [withCacheKeySeparator ['|']]) 1 0 [['a'], ['b'], ['c']])
      2 0 [['a'], ['b'], ['d']])
    3 0 [['x'], ['y'], ['z']]

/-! ### Key-codec lemmas (single-character separator) -/

lemma isPrefixOf_single (c ch : Char) (rest : Str) :
    [c].isPrefixOf (ch :: rest) = decide (c = ch) := by
  simp only [List.isPrefixOf, Bool.and_true]
  by_cases h : c = ch <;> simp [h]

lemma stringsSplitAux_no_sep (c : Char) (s : Str) (h : c ∉ s) (acc : Str) :
    stringsSplitAux [c] s 0 acc = [acc.reverse ++ s] := by
  induction s generalizing acc with
  | nil => simp [stringsSplitAux]
  | cons ch rest ih =>
    rw [List.mem_cons, not_or] at h
    obtain ⟨h1, h2⟩ := h
    rw [stringsSplitAux, isPrefixOf_single]
    simp only [decide_eq_true_eq]
    rw [if_neg h1, ih h2]
    simp

lemma stringsSplitAux_found (c : Char) (p : Str) (h : c ∉ p) (rest acc : Str) :
    stringsSplitAux [c] (p ++ c :: rest) 0 acc =
      (acc.reverse ++ p) :: stringsSplitAux [c] rest 0 [] := by
  induction p generalizing acc with
  | nil =>
    rw [List.nil_append, stringsSplitAux, isPrefixOf_single]
    simp [stringsSplitAux]
  | cons ch p ih =>
    rw [List.mem_cons, not_or] at h
    obtain ⟨h1, h2⟩ := h
    rw [List.cons_append, stringsSplitAux, isPrefixOf_single]
    simp only [decide_eq_true_eq]
    rw [if_neg h1, ih h2]
    simp

lemma stringsSplit_stringsJoin (c : Char) (ps : List Str) (hne : ps ≠ [])
    (hc : ∀ p ∈ ps, c ∉ p) :
    stringsSplit [c] (stringsJoin [c] ps) = ps := by
  induction ps with
  | nil => exact absurd rfl hne
  | cons p ps ih =>
    cases ps with
    | nil =>
      rw [stringsJoin, stringsSplit, stringsSplitAux_no_sep c p (hc p (by simp))]
      simp
    | cons q ps2 =>
      have hjoin : stringsJoin [c] (p :: q :: ps2) = p ++ c :: stringsJoin [c] (q :: ps2) := by
        rw [stringsJoin]
        simp
      rw [stringsSplit, hjoin, stringsSplitAux_found c p (hc p (by simp))]
      have ihq := ih (by simp) (fun x hx => hc x (List.mem_cons_of_mem p hx))
      rw [stringsSplit] at ihq
      rw [ihq]
      simp

lemma stringsJoin_ne_nil (c : Char) (ps : List Str) (h1 : ps ≠ []) (h2 : ps ≠ [[]]) :
    stringsJoin [c] ps ≠ [] := by
  match ps with
  | [p] =>
    cases p with
    | nil => exact absurd rfl h2
    | cons ch rest => rw [stringsJoin]; simp
  | p :: q :: rest =>
    rw [stringsJoin]
    simp

/-! ### C1: key-codec round trip -/

/-- C1, counterexample: the round-trip law fails as stated.  With separator
`"-"`, encoding `[""]` gives `""`, which decodes to `[]`, not `[""]`;
`encode([])` and `encode([""])` are the same key, not distinct; and a part
containing the separator (`["a-b"]`) decodes to `["a","b"]`. -/
theorem generateCacheKey_roundtrip_fails :
    deGenerateCacheKey ['-'] (generateCacheKey ['-'] [[]]) ≠ [([] : Str)] ∧
    generateCacheKey ['-'] [] = generateCacheKey ['-'] [[]] ∧
    deGenerateCacheKey ['-'] (generateCacheKey ['-'] [['a', '-', 'b']]) ≠
      [['a', '-', 'b']] := by
  decide

/-- C1, amended: for a one-character separator `c`, decoding the encoded
key yields the part sequence back for every sequence other than `[""]`
whose parts do not contain `c` (the empty sequence included); the law does
not extend to parts containing the separator, and `encode([])` coincides
with `encode([""])`. -/
theorem generateCacheKey_roundtrip_restricted (c : Char) (ps : List Str)
    (hps : ps ≠ [[]]) (hc : ∀ p ∈ ps, c ∉ p) :
    deGenerateCacheKey [c] (generateCacheKey [c] ps) = ps := by
  cases ps with
  | nil => rfl
  | cons p ps2 =>
    have hne : (p :: ps2) ≠ ([] : List Str) := by simp
    have hnn := stringsJoin_ne_nil c (p :: ps2) hne hps
    have hkey : generateCacheKey [c] (p :: ps2) = stringsJoin [c] (p :: ps2) := by
      rw [generateCacheKey]
      simp
    rw [hkey, deGenerateCacheKey, if_neg (by simpa [List.length_eq_zero] using hnn)]
    exact stringsSplit_stringsJoin c (p :: ps2) hne hc

/-- Witness for the amended C1 round trip at separator `'-'` and parts
`["a","bc"]`. -/
theorem generateCacheKey_roundtrip_restricted_witness :
    (([['a'], ['b', 'c']] : List Str) ≠ [[]] ∧
        ∀ p ∈ ([['a'], ['b', 'c']] : List Str), '-' ∉ p) ∧
      deGenerateCacheKey ['-'] (generateCacheKey ['-'] [['a'], ['b', 'c']]) =
        [['a'], ['b', 'c']] :=
  ⟨⟨by decide, by decide⟩,
    generateCacheKey_roundtrip_restricted '-' [['a'], ['b', 'c']] (by decide) (by decide)⟩

/-! ### Association-list (Go map) lemmas -/

lemma mapLookup_mapStore_self {T : Type} (m : List (Str × cacheEntry T)) (k : Str)
    (e : cacheEntry T) :
    mapLookup (mapStore m k e) k = some e := by
  induction m with
  | nil => simp [mapStore, mapLookup]
  | cons p rest ih =>
    obtain ⟨k0, e0⟩ := p
    by_cases h : k0 = k
    · simp [mapStore, h, mapLookup]
    · simp [mapStore, h, mapLookup, ih]

lemma mapLookup_mapStore_ne {T : Type} (m : List (Str × cacheEntry T)) (k k' : Str)
    (e : cacheEntry T) (h : ¬ k' = k) :
    mapLookup (mapStore m k e) k' = mapLookup m k' := by
  induction m with
  | nil =>
    have hkk : ¬ k = k' := fun hh => h hh.symm
    simp [mapStore, mapLookup, hkk]
  | cons p rest ih =>
    obtain ⟨k0, e0⟩ := p
    by_cases h0 : k0 = k
    · subst h0
      have hkk : ¬ k0 = k' := fun hh => h hh.symm
      simp [mapStore, mapLookup, hkk]
    · simp [mapStore, h0, mapLookup, ih]

/-! ### C4: `Get` case analysis -/

/-- C4: `Get` returns `(zero, NotFound)` and leaves the cache unchanged
when the encoded key is absent; returns `(zero, Expired)` and resets the
entry's data in place (expiration instant untouched) when the entry is
expired; and returns the stored data with no error and no state change
otherwise. -/
theorem get_case_analysis {T : Type} [Inhabited T] (c : bmemCache T) (now : Int)
    (keys : List Str) :
    (mapLookup c.items (generateCacheKey c.cacheKeySeparator keys) = none →
        bmemCache.Get c now keys = ((generateEmptyData T, some GoError.ErrNotFound), c)) ∧
    (∀ e, mapLookup c.items (generateCacheKey c.cacheKeySeparator keys) = some e →
        e.isExpired now = true →
        bmemCache.Get c now keys =
          ((generateEmptyData T, some GoError.ErrExpired),
            { c with
              items := mapStore c.items (generateCacheKey c.cacheKeySeparator keys)
                ⟨generateEmptyData T, e.Exp⟩ })) ∧
    (∀ e, mapLookup c.items (generateCacheKey c.cacheKeySeparator keys) = some e →
        e.isExpired now = false →
        bmemCache.Get c now keys = ((e.Data, none), c)) := by
  refine ⟨fun h => ?_, fun e he hx => ?_, fun e he hx => ?_⟩
  · simp [bmemCache.Get, h]
  · simp [bmemCache.Get, he, hx, cacheEntry.flush, generateEmptyData]
  · simp [bmemCache.Get, he, hx]

/-- Witness for C4 on a concrete one-entry cache: the absent-key and
not-expired branches evaluated at explicit inputs. -/
theorem get_case_analysis_witness :
    (mapLookup (bmemCache.Set (New Int []) 7 0 [['a']]).items
        (generateCacheKey (bmemCache.Set (New Int []) 7 0 [['a']]).cacheKeySeparator
          [['z']]) = none ∧
      bmemCache.Get (bmemCache.Set (New Int []) 7 0 [['a']]) 0 [['z']] =
        ((generateEmptyData Int, some GoError.ErrNotFound),
          bmemCache.Set (New Int []) 7 0 [['a']])) ∧
    (mapLookup (bmemCache.Set (New Int []) 7 0 [['a']]).items
        (generateCacheKey (bmemCache.Set (New Int []) 7 0 [['a']]).cacheKeySeparator
          [['a']]) = some ⟨7, 0⟩ ∧
      cacheEntry.isExpired (⟨7, 0⟩ : cacheEntry Int) 99 = false ∧
      bmemCache.Get (bmemCache.Set (New Int []) 7 0 [['a']]) 99 [['a']] =
        (((7 : Int), none), bmemCache.Set (New Int []) 7 0 [['a']])) :=
  ⟨⟨by decide, (get_case_analysis (bmemCache.Set (New Int []) 7 0 [['a']]) 0 [['z']]).1
      (by decide)⟩,
    ⟨by decide, by decide,
      (get_case_analysis (bmemCache.Set (New Int []) 7 0 [['a']]) 99 [['a']]).2.2
        ⟨7, 0⟩ (by decide) (by decide)⟩⟩

/-! ### C3: presence/expiry asymmetry -/

/-- C3: for an expired-but-present entry, `IsExist` still answers true,
`Get` answers the `Expired` error with the zero value, and the key remains
present (still `IsExist`-true) after the `Get` call. -/
theorem isExist_true_for_expired {T : Type} [Inhabited T] (c : bmemCache T) (now : Int)
    (keys : List Str) (e : cacheEntry T)
    (hlook : mapLookup c.items (generateCacheKey c.cacheKeySeparator keys) = some e)
    (hexp : e.isExpired now = true) :
    bmemCache.IsExist c keys = true ∧
    (bmemCache.Get c now keys).1 = (generateEmptyData T, some GoError.ErrExpired) ∧
    bmemCache.IsExist (bmemCache.Get c now keys).2 keys = true := by
  refine ⟨?_, ?_, ?_⟩
  · simp [bmemCache.IsExist, hlook]
  · simp [bmemCache.Get, hlook, hexp]
  · simp [bmemCache.Get, hlook, hexp, bmemCache.IsExist, mapLookup_mapStore_self]

/-- Witness for C3: a value stored at time 10 with TTL 5 is expired at time
20 but still reported present, while `Get` reports `Expired`. -/
theorem isExist_true_for_expired_witness :
    (mapLookup (bmemCache.SetWithExp (New Int []) 42 5 10 [['k']]).items
        (generateCacheKey
          (bmemCache.SetWithExp (New Int []) 42 5 10 [['k']]).cacheKeySeparator
          [['k']]) = some ⟨42, 15⟩ ∧
      cacheEntry.isExpired (⟨42, 15⟩ : cacheEntry Int) 20 = true) ∧
    (bmemCache.IsExist (bmemCache.SetWithExp (New Int []) 42 5 10 [['k']]) [['k']] = true ∧
      (bmemCache.Get (bmemCache.SetWithExp (New Int []) 42 5 10 [['k']]) 20 [['k']]).1 =
        (generateEmptyData Int, some GoError.ErrExpired) ∧
      bmemCache.IsExist
        (bmemCache.Get (bmemCache.SetWithExp (New Int []) 42 5 10 [['k']]) 20 [['k']]).2
        [['k']] = true) :=
  ⟨⟨by decide, by decide⟩,
    isExist_true_for_expired (bmemCache.SetWithExp (New Int []) 42 5 10 [['k']]) 20
      [['k']] ⟨42, 15⟩ (by decide) (by decide)⟩

/-! ### C6: `TTL` case analysis -/

/-- C6: `TTL` returns `NotFound` for an absent key, the sentinel `-1` with
no error for an entry with no expiration instant, the `Expired` error when
the remaining time is non-positive, and otherwise the strictly positive
remaining duration with no error. -/
theorem ttl_case_analysis {T : Type} (c : bmemCache T) (now : Int) (keys : List Str) :
    (mapLookup c.items (generateCacheKey c.cacheKeySeparator keys) = none →
        bmemCache.TTL c now keys = (0, some GoError.ErrNotFound)) ∧
    (∀ e, mapLookup c.items (generateCacheKey c.cacheKeySeparator keys) = some e →
        e.Exp = 0 → bmemCache.TTL c now keys = (-1, none)) ∧
    (∀ e, mapLookup c.items (generateCacheKey c.cacheKeySeparator keys) = some e →
        ¬ e.Exp = 0 → e.Exp - now ≤ 0 →
        bmemCache.TTL c now keys = (0, some GoError.ErrExpired)) ∧
    (∀ e, mapLookup c.items (generateCacheKey c.cacheKeySeparator keys) = some e →
        ¬ e.Exp = 0 → 0 < e.Exp - now →
        bmemCache.TTL c now keys = (e.Exp - now, none) ∧ 0 < e.Exp - now) := by
  refine ⟨fun h => ?_, fun e he h0 => ?_, fun e he h0 hr => ?_, fun e he h0 hr => ⟨?_, hr⟩⟩
  · simp [bmemCache.TTL, h]
  · simp [bmemCache.TTL, he, h0]
  · simp [bmemCache.TTL, he, h0, hr]
  · simp [bmemCache.TTL, he, h0]
    omega

/-- Witness for C6: the no-expiration sentinel and the positive-remaining
branches evaluated on concrete caches. -/
theorem ttl_case_analysis_witness :
    (mapLookup (bmemCache.Set (New Int []) 3 0 [['p']]).items
        (generateCacheKey (bmemCache.Set (New Int []) 3 0 [['p']]).cacheKeySeparator
          [['p']]) = some ⟨3, 0⟩ ∧
      bmemCache.TTL (bmemCache.Set (New Int []) 3 0 [['p']]) 50 [['p']] = (-1, none)) ∧
    (mapLookup (bmemCache.SetWithExp (New Int []) 9 5 10 [['t']]).items
        (generateCacheKey
          (bmemCache.SetWithExp (New Int []) 9 5 10 [['t']]).cacheKeySeparator
          [['t']]) = some ⟨9, 15⟩ ∧
      bmemCache.TTL (bmemCache.SetWithExp (New Int []) 9 5 10 [['t']]) 12 [['t']] =
        (3, none)) :=
  ⟨⟨by decide,
      (ttl_case_analysis (bmemCache.Set (New Int []) 3 0 [['p']]) 50 [['p']]).2.1
        ⟨3, 0⟩ (by decide) (by decide)⟩,
    ⟨by decide,
      ((ttl_case_analysis (bmemCache.SetWithExp (New Int []) 9 5 10 [['t']]) 12
            [['t']]).2.2.2 ⟨9, 15⟩ (by decide) (by decide) (by decide)).1⟩⟩

/-! ### C7: `SetWithExp` semantics -/

/-- C7: `SetWithExp` stores the entry under the encoded key with expiration
instant `now + duration` when the duration is positive and with the zero
instant (an entry that is never expired, at any time) otherwise, always
overwriting any existing entry for that key and leaving every other key's
binding unchanged. -/
theorem setWithExp_spec {T : Type} (c : bmemCache T) (data : T) (duration now : Int)
    (keys : List Str) :
    (0 < duration →
        mapLookup (bmemCache.SetWithExp c data duration now keys).items
          (generateCacheKey c.cacheKeySeparator keys) = some ⟨data, now + duration⟩) ∧
    (duration ≤ 0 →
        mapLookup (bmemCache.SetWithExp c data duration now keys).items
          (generateCacheKey c.cacheKeySeparator keys) = some ⟨data, 0⟩ ∧
        ∀ t : Int, cacheEntry.isExpired (⟨data, (0 : Int)⟩ : cacheEntry T) t = false) ∧
    (∀ k, ¬ k = generateCacheKey c.cacheKeySeparator keys →
        mapLookup (bmemCache.SetWithExp c data duration now keys).items k =
          mapLookup c.items k) := by
  refine ⟨fun h => ?_, fun h => ⟨?_, fun t => ?_⟩, fun k hk => ?_⟩
  · simp [bmemCache.SetWithExp, h, mapLookup_mapStore_self]
  · simp [bmemCache.SetWithExp, show ¬ duration > 0 by omega, mapLookup_mapStore_self]
  · simp [cacheEntry.isExpired]
  · simp [bmemCache.SetWithExp, mapLookup_mapStore_ne _ _ _ _ hk]

/-- Witness for C7: a positive duration yields `now + duration` as the
expiration instant; duration zero yields a never-expiring entry that
overwrites the earlier binding. -/
theorem setWithExp_spec_witness :
    ((0 : Int) < 5 ∧
      mapLookup (bmemCache.SetWithExp (New Int []) 9 5 10 [['t']]).items
        (generateCacheKey (New Int []).cacheKeySeparator [['t']]) = some ⟨9, 15⟩) ∧
    ((0 : Int) ≤ 0 ∧
      mapLookup
        (bmemCache.SetWithExp (bmemCache.SetWithExp (New Int []) 9 5 10 [['t']]) 8 0 20
          [['t']]).items
        (generateCacheKey
          (bmemCache.SetWithExp (New Int []) 9 5 10 [['t']]).cacheKeySeparator
          [['t']]) = some ⟨8, 0⟩) :=
  ⟨⟨by decide, (setWithExp_spec (New Int []) 9 5 10 [['t']]).1 (by decide)⟩,
    ⟨by decide,
      ((setWithExp_spec (bmemCache.SetWithExp (New Int []) 9 5 10 [['t']]) 8 0 20
            [['t']]).2.1 (by decide)).1⟩⟩

/-! ### C2: `KeysFromPrefix` with no arguments -/

/-- C2, counterexample: with one stored key `{a}`, `Keys` lists it but
`KeysFromPrefix()` (zero key-part arguments) does not return it, so the two
do not agree as sets. -/
theorem keysFromPrefix_noArgs_not_all_keys :
    ([['a']] : List Str) ∈
        bmemCache.Keys (bmemCache.Set (New Int [withCacheKeySeparator ['|']]) 1 0 [['a']]) ∧
    ¬ ([['a']] : List Str) ∈
        ( bmemCache.KeysFromPrefix
            (bmemCache.Set (New Int [withCacheKeySeparator ['|']]) 1 0 [['a']]) 0 []).1 := by
  decide

/-- C2, amended: with zero key-part arguments `KeysFromPrefix` consults
only the empty encoded key (double-encoding the empty part list collapses
to the empty string): it returns `[[]]` when an entry for that key is
present and unexpired and `[]` otherwise, never the other stored keys. -/
theorem keysFromPrefix_noArgs_behavior {T : Type} [Inhabited T] (c : bmemCache T)
    (now : Int) :
    ( bmemCache.KeysFromPrefix c now []).1 =
      match mapLookup c.items [] with
      | none => []
      | some e => if e.isExpired now then [] else [([] : List Str)] := by
  have hkey : generateCacheKey c.cacheKeySeparator
      [generateCacheKey c.cacheKeySeparator []] = ([] : Str) := rfl
  cases hm : mapLookup c.items ([] : Str) with
  | none => simp [ bmemCache.KeysFromPrefix, bmemCache.Get, hkey, hm]
  | some e =>
    cases hx : e.isExpired now <;>
      simp [ bmemCache.KeysFromPrefix, bmemCache.Get, hkey, hm, hx]

/-- Witness for the amended C2, evaluated on a concrete one-key cache. -/
theorem keysFromPrefix_noArgs_behavior_witness :
    ( bmemCache.KeysFromPrefix
        (bmemCache.Set (New Int [withCacheKeySeparator ['|']]) 1 0 [['a']]) 0 []).1 =
      match mapLookup
          (bmemCache.Set (New Int [withCacheKeySeparator ['|']]) 1 0 [['a']]).items
          ([] : Str) with
      | none => []
      | some e => if e.isExpired 0 then [] else [([] : List Str)] :=
  keysFromPrefix_noArgs_behavior
    (bmemCache.Set (New Int [withCacheKeySeparator ['|']]) 1 0 [['a']]) 0

/-! ### C5: auto-cleanup interval normalization -/

/-- C5, counterexample: enabling auto-cleanup with the negative interval
`-5` leaves the interval at `-5`; a non-positive interval is not normalized
to one minute unless it is exactly zero. -/
theorem withAutoCleanUp_negative_not_normalized :
    (withAutoCleanUp (-5) {}).AutoCleanup = true ∧
    (-5 : Int) ≤ 0 ∧
    (withAutoCleanUp (-5) {}).AutoCleanupInterval = -5 ∧
    ¬ (withAutoCleanUp (-5) {}).AutoCleanupInterval = timeMinute := by
  decide

/-- C5, amended: `withAutoCleanUp` always enables auto-cleanup and
normalizes the interval to one minute exactly when the supplied interval is
zero; any non-zero interval, negative ones included, is stored unchanged. -/
theorem withAutoCleanUp_normalizes_only_zero (o : option) (d : Int) :
    (withAutoCleanUp d o).AutoCleanup = true ∧
    (d = 0 → (withAutoCleanUp d o).AutoCleanupInterval = timeMinute) ∧
    (¬ d = 0 → (withAutoCleanUp d o).AutoCleanupInterval = d) ∧
    (withAutoCleanUp d o).CacheKeySeparator = o.CacheKeySeparator := by
  by_cases h : d = 0 <;> simp [withAutoCleanUp, h]

/-- Witness for the amended C5 at intervals `0` (normalized) and `-5`
(kept). -/
theorem withAutoCleanUp_normalizes_only_zero_witness :
    ((0 : Int) = 0 ∧ (withAutoCleanUp 0 {}).AutoCleanupInterval = timeMinute) ∧
    (¬ (-5 : Int) = 0 ∧ (withAutoCleanUp (-5) {}).AutoCleanupInterval = -5) :=
  ⟨⟨rfl, (withAutoCleanUp_normalizes_only_zero {} 0).2.1 rfl⟩,
    ⟨by decide, (withAutoCleanUp_normalizes_only_zero {} (-5)).2.2.1 (by decide)⟩⟩

/-! ### C8: `KeysFromPrefix` with a non-empty prefix -/

lemma prefixLoopMatch_iff (ks fs : List Str) :
    prefixLoopMatch ks fs = true ↔ ks.length ≤ fs.length ∧ fs.take ks.length = ks := by
  induction ks generalizing fs with
  | nil => simp [prefixLoopMatch]
  | cons k ks ih =>
    cases fs with
    | nil => simp [prefixLoopMatch]
    | cons f fs2 =>
      simp only [prefixLoopMatch, Bool.and_eq_true, decide_eq_true_eq, ih,
        List.length_cons, List.take_succ_cons, List.cons.injEq,
        Nat.add_le_add_iff_right]
      tauto

/-- C8: for a non-empty prefix `ps`, `KeysFromPrefix` returns exactly the
decoded stored keys whose length is at least `ps.length` and whose first
`ps.length` parts equal `ps` element-wise; in particular, when every stored
key is shorter than the prefix, the result is empty. -/
theorem keysFromPrefix_prefix_spec {T : Type} [Inhabited T] (c : bmemCache T) (now : Int)
    (ps : List Str) (hps : ps ≠ []) :
    (∀ frags, frags ∈ ( bmemCache.KeysFromPrefix c now ps).1 ↔
        (frags ∈ bmemCache.Keys c ∧ ps.length ≤ frags.length ∧
          frags.take ps.length = ps)) ∧
    ((∀ frags ∈ bmemCache.Keys c, frags.length < ps.length) →
        ( bmemCache.KeysFromPrefix c now ps).1 = []) := by
  have hlen : ¬ ps.length = 0 := by simpa [List.length_eq_zero] using hps
  constructor
  · intro frags
    rw [ bmemCache.KeysFromPrefix, if_neg hlen]
    simp only [List.mem_filter, Bool.and_eq_true, decide_eq_true_eq, prefixLoopMatch_iff,
      Nat.not_lt]
    tauto
  · intro hall
    rw [ bmemCache.KeysFromPrefix, if_neg hlen]
    simp only [List.filter_eq_nil_iff]
    intro frags hf
    simp [Nat.not_lt, Nat.le_of_lt (hall frags hf), prefixLoopMatch_iff,
      Nat.not_le.2 (hall frags hf)]

/-- Witness for C8 on `cacheABC` with prefix `{a,b}`: membership of the
stored key `{a,b,c}` is equivalent to the length/element-wise-prefix
condition. -/
theorem keysFromPrefix_prefix_spec_witness :
    (([['a'], ['b']] : List Str) ≠ [] ∧
      (([['a'], ['b'], ['c']] : List Str) ∈
          ( bmemCache.KeysFromPrefix cacheABC 0 [['a'], ['b']]).1 ↔
        (([['a'], ['b'], ['c']] : List Str) ∈ bmemCache.Keys cacheABC ∧
          ([['a'], ['b']] : List Str).length ≤ ([['a'], ['b'], ['c']] : List Str).length ∧
          ([['a'], ['b'], ['c']] : List Str).take ([['a'], ['b']] : List Str).length =
            [['a'], ['b']]))) :=
  ⟨by decide,
    (keysFromPrefix_prefix_spec cacheABC 0 [['a'], ['b']] (by decide)).1
      [['a'], ['b'], ['c']]⟩

/-! ### C9: `Close` idempotence -/

/-- C9: a second `Close` performs no further state change (`Close` is
idempotent), and `Close` never touches the stored items or the configured
separator — with or without a scheduler channel. -/
theorem close_idempotent {T : Type} (c : bmemCache T) :
    bmemCache.Close (bmemCache.Close c) = bmemCache.Close c ∧
    (bmemCache.Close c).items = c.items ∧
    (bmemCache.Close c).cacheKeySeparator = c.cacheKeySeparator := by
  refine ⟨?_, ?_, ?_⟩ <;> by_cases h : c.doneOnce <;> simp [bmemCache.Close, h]

/-- Witness for C9 on a concrete cache with a scheduler channel. -/
theorem close_idempotent_witness :
    bmemCache.Close (bmemCache.Close (New Int [withAutoCleanUp 50])) =
      bmemCache.Close (New Int [withAutoCleanUp 50]) ∧
    (bmemCache.Close (New Int [withAutoCleanUp 50])).items =
      (New Int [withAutoCleanUp 50]).items ∧
    (bmemCache.Close (New Int [withAutoCleanUp 50])).cacheKeySeparator =
      (New Int [withAutoCleanUp 50]).cacheKeySeparator :=
  close_idempotent (New Int [withAutoCleanUp 50])

/-! ### C10: key aliasing under the default separator -/

lemma stringsJoin_nil_sep (l : List Str) : stringsJoin [] l = l.flatten := by
  induction l with
  | nil => rfl
  | cons s rest ih =>
    cases rest with
    | nil => simp [stringsJoin]
    | cons s2 r2 =>
      rw [stringsJoin]
      simp [ih]

lemma generateCacheKey_nil_sep (ks : List Str) : generateCacheKey [] ks = ks.flatten := by
  cases ks with
  | nil => rfl
  | cons s rest =>
    rw [generateCacheKey]
    simp [stringsJoin_nil_sep]

/-- C10: a cache built with no options uses the empty separator, under
which the encoded key of a part sequence is the plain concatenation of its
parts; consequently any two part sequences with equal concatenations
address the same entry: `Set` under one followed by `Get` under the other
returns the stored value with no error. -/
theorem default_separator_key_aliasing (T : Type) [Inhabited T] (v : T) (now t : Int)
    (ks1 ks2 : List Str) (h : ks1.flatten = ks2.flatten) :
    (New T []).cacheKeySeparator = [] ∧
    (∀ ks : List Str, generateCacheKey (New T []).cacheKeySeparator ks = ks.flatten) ∧
    (bmemCache.Get (bmemCache.Set (New T []) v now ks1) t ks2).1 = (v, none) := by
  refine ⟨rfl, fun ks => generateCacheKey_nil_sep ks, ?_⟩
  simp [bmemCache.Set, bmemCache.SetWithExp, bmemCache.Get, New, generateCacheKey_nil_sep,
    h, mapStore, mapLookup, cacheEntry.isExpired]

/-- Witness for C10: `Set` under `["ab"]` followed by `Get` under
`["a","b"]` returns the stored value. -/
theorem default_separator_key_aliasing_witness :
    ([['a', 'b']] : List Str).flatten = ([['a'], ['b']] : List Str).flatten ∧
    (bmemCache.Get (bmemCache.Set (New Int []) 7 0 [['a', 'b']]) 0 [['a'], ['b']]).1 =
      (7, none) :=
  ⟨by decide,
    (default_separator_key_aliasing Int 7 0 0 [['a', 'b']] [['a'], ['b']] (by decide)).2.2⟩

end BMem
